import Mathlib

/-!
Shallow embedding of the FDB storage engine (`fdb_server.py`) and proofs
about its cache/disk behaviour.

Modelling conventions:
* Python values (`Any`) are modelled by the inductive `Value`; Python's
  `None` is `Value.null`.  The engine conflates `None`-as-value with
  `None`-as-not-found (`get` returns `Optional[Any]`), so `get` here
  returns a plain `Value`, with `Value.null` playing both roles, exactly
  as the Python caller observes.
* The cache (`self._cache`, a Python `dict`) is an insertion-ordered
  association list; `insertA` mirrors `d[k] = v` (update in place for an
  existing key, append otherwise) and `eraseKey` mirrors `del d[k]`.
* Wall-clock time (`time.time()`) is a logical counter `clock`,
  incremented whenever the source takes a fresh timestamp for a cache
  entry.  Only the relative order of timestamps matters to the engine.
* Disk I/O outcomes are an explicit oracle: `_save_to_disk` succeeds for
  key `k` iff `wOk k = true` (on failure it catches the exception, writes
  nothing, and returns `False`); `_remove_from_disk`'s `unlink` succeeds
  iff `rOk = true`.  MD5 paths are idealised as injective, so the disk is
  a map from key to its record.
* Python's `sorted` is a stable sort; it is embedded as Mathlib's stable
  `List.insertionSort`, which produces the same list for the total
  preorder used by `_evict_lru`.
-/

deriving instance DecidableEq for Except

namespace FDB

/-- Payloads the engine stores; `null` is Python's `None`. -/
inductive Value where
  | null
  | bool (b : Bool)
  | int (n : Int)
  | str (s : String)
deriving DecidableEq, Repr

/-- `CacheEntry` dataclass: `value`, `timestamp`, `dirty`, `access_count`. -/
structure CacheEntry where
  value : Value
  timestamp : Nat
  dirty : Bool
  access_count : Nat
deriving DecidableEq, Repr

/-- The record `_save_to_disk` pickles into a shard file:
`{'key': key, 'value': value, 'timestamp': time.time()}`. -/
structure DiskRecord where
  key : String
  value : Value
  timestamp : Nat
deriving DecidableEq, Repr

/-- The configuration fields the engine core reads. -/
structure FDBConfig where
  cache_size : Nat
deriving DecidableEq, Repr

/-- Engine state: the cache index, the shard files on disk (keyed by the
key whose MD5 path they occupy), and the logical clock. -/
structure EngineState where
  config : FDBConfig
  cache : List (String × CacheEntry)
  disk : List (String × DiskRecord)
  clock : Nat
deriving DecidableEq, Repr

/-- First-match association-list lookup (`d[k]` / `d.get(k)`). -/
def lookupA (k : String) : List (String × α) → Option α
  | [] => none
  | (k1, v) :: t => if k1 = k then some v else lookupA k t

/-- `k in d` for a Python dict. -/
def containsKey (k : String) (l : List (String × α)) : Bool :=
  (lookupA k l).isSome

/-- `d[k] = v` on a Python dict: replace in place if present, else append. -/
def insertA (k : String) (v : α) : List (String × α) → List (String × α)
  | [] => [(k, v)]
  | (k1, v1) :: t => if k1 = k then (k, v) :: t else (k1, v1) :: insertA k v t

/-- `del d[k]` (on states where `k` occurs at most once this removes
exactly that binding). -/
def eraseKey (k : String) (l : List (String × α)) : List (String × α) :=
  l.filter (fun p => p.1 ≠ k)

/-- The dict invariant: the association list binds each key once. -/
def keysNodup (l : List (String × α)) : Prop :=
  (l.map Prod.fst).Nodup

instance (l : List (String × α)) : Decidable (keysNodup l) := by
  unfold keysNodup; exact inferInstance

/-- Errors surfaced synchronously by the engine facade. -/
inductive FDBError where
  | invalidKey
deriving DecidableEq, Repr

/-- `KeyValidator` / `FDBEngine._validate_key`: reject empty keys and keys
longer than 256 characters, otherwise return the key unchanged. -/
def _validate_key (k : String) : Except FDBError String :=
  if k.length = 0 ∨ k.length > 256 then .error .invalidKey else .ok k

/-- The eviction ranking of `_evict_lru`:
`key=lambda x: (x[1].access_count, x[1].timestamp)`, ascending lexicographic
order on the pair. -/
def rankLe (a b : String × CacheEntry) : Prop :=
  a.2.access_count < b.2.access_count ∨
    (a.2.access_count = b.2.access_count ∧ a.2.timestamp ≤ b.2.timestamp)

instance : DecidableRel rankLe := fun a b => by
  unfold rankLe; exact inferInstance

instance : IsTotal (String × CacheEntry) rankLe :=
  ⟨by intro a b; unfold rankLe; omega⟩

instance : IsTrans (String × CacheEntry) rankLe :=
  ⟨by intro a b c; unfold rankLe; omega⟩

/-- `FDBEngine._save_to_disk` applied to one key: on success the shard
file now holds `{key, value, timestamp}`; on failure the exception is
caught, nothing is written, and `False` is returned. -/
def _save_to_disk (wOk : String → Bool) (k : String) (v : Value)
    (now : Nat) (disk : List (String × DiskRecord)) :
    Bool × List (String × DiskRecord) :=
  if wOk k then (true, insertA k ⟨k, v, now⟩ disk) else (false, disk)

/-- The body of `_evict_lru`'s loop for one evictee: if the entry is
dirty, run `_save_to_disk` (its boolean result is ignored), then
`del self._cache[key]` unconditionally. -/
def evictStep (wOk : String → Bool) (st : EngineState)
    (ke : String × CacheEntry) : EngineState :=
  let st1 :=
    if ke.2.dirty then
      { st with disk := (_save_to_disk wOk ke.1 ke.2.value st.clock st.disk).2 }
    else st
  { st1 with cache := eraseKey ke.1 st1.cache }

/-- `FDBEngine._evict_lru`: if the cache exceeds `cache_size`, sort the
items by `(access_count, timestamp)` (stably, as Python's `sorted`), take
the first `len // 10 + 1`, and run `evictStep` on each. -/
def _evict_lru (wOk : String → Bool) (s : EngineState) : EngineState :=
  if s.cache.length ≤ s.config.cache_size then s
  else
    let sorted_items := List.insertionSort rankLe s.cache
    let to_remove := sorted_items.length / 10 + 1
    (sorted_items.take to_remove).foldl (evictStep wOk) s

/-- The state `set` reaches right after `self._cache[key] = entry` and
before the eviction check: a fresh dirty entry with `access_count = 1`
and a fresh timestamp has been installed. -/
def setInsertPhase (k : String) (v : Value) (s : EngineState) : EngineState :=
  { s with cache := insertA k ⟨v, s.clock, true, 1⟩ s.cache, clock := s.clock + 1 }

/-- `FDBEngine.set`: validate the key, install a fresh dirty entry, and
evict if the cache now holds more than `cache_size` entries.  Returns
`True`. -/
def set (k : String) (v : Value) (wOk : String → Bool) (s : EngineState) :
    Except FDBError (Bool × EngineState) := do
  let k ← _validate_key k
  let s1 := setInsertPhase k v s
  let s2 := if s1.cache.length > s1.config.cache_size then _evict_lru wOk s1 else s1
  return (true, s2)

/-- `entry.access_count += 1` on a cache hit. -/
def bumpAccess (k : String) (l : List (String × CacheEntry)) :
    List (String × CacheEntry) :=
  l.map (fun p => if p.1 = k then (p.1, { p.2 with access_count := p.2.access_count + 1 }) else p)

/-- `FDBEngine._load_from_disk`: read the shard file and return
`data.get('value')`; a missing file (or any error) yields `None`. -/
def _load_from_disk (k : String) (disk : List (String × DiskRecord)) : Value :=
  match lookupA k disk with
  | some rec1 => rec1.value
  | none => Value.null

/-- `FDBEngine.get`: validate; on a cache hit bump `access_count` and
return the entry's value; on a miss load from disk, and iff the loaded
value `is not None`, warm the cache with a clean (`dirty = False`) entry.
The returned `Value.null` is the Python `None` result. -/
def get (k : String) (s : EngineState) :
    Except FDBError (Value × EngineState) := do
  let k ← _validate_key k
  match lookupA k s.cache with
  | some entry =>
      return (entry.value, { s with cache := bumpAccess k s.cache })
  | none =>
      let value := _load_from_disk k s.disk
      if value ≠ Value.null then
        return (value,
          { s with cache := insertA k ⟨value, s.clock, false, 1⟩ s.cache,
                   clock := s.clock + 1 })
      else
        return (Value.null, s)

/-- `FDBEngine._remove_from_disk`: if the shard file exists, `unlink` it
(an exception leaves the file in place and returns `False`); a missing
file returns `True`. -/
def _remove_from_disk (rOk : Bool) (k : String)
    (disk : List (String × DiskRecord)) : Bool × List (String × DiskRecord) :=
  match lookupA k disk with
  | some _ => if rOk then (true, eraseKey k disk) else (false, disk)
  | none => (true, disk)

/-- `FDBEngine.delete`: validate; remove the cache entry unconditionally;
then remove the shard file, returning `_remove_from_disk`'s result. -/
def delete (k : String) (rOk : Bool) (s : EngineState) :
    Except FDBError (Bool × EngineState) := do
  let k ← _validate_key k
  let s1 : EngineState := { s with cache := eraseKey k s.cache }
  let (ok, disk1) := _remove_from_disk rOk k s1.disk
  return (ok, { s1 with disk := disk1 })

/-- `FDBEngine.exists`: validate; true iff the key is in the cache or its
shard file exists. -/
def existsKey (k : String) (s : EngineState) :
    Except FDBError (Bool × EngineState) := do
  let k ← _validate_key k
  return (containsKey k s.cache || containsKey k s.disk, s)

/-- The boolean the executor hands back for one `_save_to_disk` call.
`_save_to_disk` wraps its whole body in `try/except` and returns a `bool`,
so `asyncio.gather(..., return_exceptions=True)` never yields an
`Exception` for it: `isinstance(result, Exception)` is identically false. -/
def resultIsException (_result : Bool) : Bool := false

/-- `FDBEngine.flush`: snapshot the dirty entries under the lock; with the
lock released, run `_save_to_disk` for each snapshot pair on the executor
(`mid` is whatever other tasks do to the engine state during this window);
reacquire the lock and, for each snapshot key whose result is not an
`Exception` and which is still in the cache, clear its dirty flag and
count it.  Returns `(dirty_count, final state)`. -/
def flush (wOk : String → Bool) (mid : EngineState → EngineState)
    (s : EngineState) : Nat × EngineState :=
  let dirty_entries := s.cache.filter (fun p => p.2.dirty)
  if dirty_entries.isEmpty then (0, s)
  else
    let disk1 := dirty_entries.foldl
      (fun d ke => (_save_to_disk wOk ke.1 ke.2.value s.clock d).2) s.disk
    let s1 := mid { s with disk := disk1 }
    let cleared := dirty_entries.foldl
      (fun (acc : Nat × List (String × CacheEntry)) ke =>
        if containsKey ke.1 acc.2 && !(resultIsException (wOk ke.1)) then
          (acc.1 + 1,
           acc.2.map (fun p => if p.1 = ke.1 then (p.1, { p.2 with dirty := false }) else p))
        else acc)
      (0, s1.cache)
    (cleared.1, { s1 with cache := cleared.2 })

/-- `FDBEngine.stop`: cancel the scheduler and run one final `flush`
(no other task interleaves during shutdown, so `mid` is the identity). -/
def stop (wOk : String → Bool) (s : EngineState) : EngineState :=
  (flush wOk id s).2

/-- A fresh engine opened on the same `data_dir`: empty cache, the disk
contents left behind by the previous engine. -/
def recover (cfg : FDBConfig) (disk : List (String × DiskRecord)) : EngineState :=
  { config := cfg, cache := [], disk := disk, clock := 0 }

/-- The state of a freshly constructed engine. -/
def initState (cache_size : Nat) : EngineState :=
  { config := { cache_size := cache_size }, cache := [], disk := [], clock := 0 }

/-- One foreground engine call in a sequential trace (each call carries
its own disk-outcome oracle). -/
inductive Op where
  | opSet (k : String) (v : Value) (wOk : String → Bool)
  | opGet (k : String)
  | opDelete (k : String) (rOk : Bool)
  | opFlush (wOk : String → Bool)

/-- Run one operation, keeping the state unchanged when the call raises
`InvalidKey`.  A sequential trace has no concurrent interference, so
`flush` runs with `mid = id`. -/
def runOp (s : EngineState) (op : Op) : EngineState :=
  match op with
  | .opSet k v w =>
      match set k v w s with
      | .ok (_, s1) => s1
      | .error _ => s
  | .opGet k =>
      match get k s with
      | .ok (_, s1) => s1
      | .error _ => s
  | .opDelete k r =>
      match delete k r s with
      | .ok (_, s1) => s1
      | .error _ => s
  | .opFlush w => (flush w id s).2

/-- Run a trace of operations left to right. -/
def runOps (s : EngineState) (ops : List Op) : EngineState :=
  ops.foldl runOp s

/-- The value a caller sees from `get` (engine errors never return a
value; `Value.null` is the not-found sentinel). -/
def getValue (k : String) (s : EngineState) : Value :=
  match get k s with
  | .ok (v, _) => v
  | .error _ => Value.null

/-- Disk oracle under which every `_save_to_disk` write succeeds. -/
def wT : String → Bool := fun _ => true

/-- Disk oracle under which every `_save_to_disk` write fails (the
exception is caught and `False` returned, nothing reaches the disk). -/
def wF : String → Bool := fun _ => false

/-- A 100-slot engine holding the single dirty entry `k ↦ 1`. -/
def c1base : EngineState := runOps (initState 100) [.opSet "k" (.int 1) wT]

/-- `flush` of `c1base` during whose write phase a competing task runs
`set("k", 2)`, replacing the snapshotted entry with a newer dirty one. -/
def c1out : Nat × EngineState :=
  flush wT (fun s => runOp s (.opSet "k" (.int 2) wT)) c1base

/-- `flush` of `c1base` whose disk write for `k` fails (no interference). -/
def c1out2 : Nat × EngineState := flush wF id c1base

/-- A 1-slot engine holding the single dirty, never-persisted entry
`a ↦ 1`. -/
def c2pre : EngineState := runOps (initState 1) [.opSet "a" (.int 1) wT]

/-- `set("b", 2)` on `c2pre`: the cache overflows and the eviction pass
picks `a`, whose disk write fails. -/
def c2state : EngineState := runOp c2pre (.opSet "b" (.int 2) wF)

/-- A 10-slot engine holding the single dirty entry `k ↦ "v"`. -/
def c3pre : EngineState := runOps (initState 10) [.opSet "k" (.str "v") wT]

/-- `stop()` on `c3pre` while the disk rejects every write: the final
flush's only write fails. -/
def c3stop : EngineState := stop wF c3pre

/-- Ten `set` calls with distinct keys on a 9-slot engine; the tenth
overflows the cache and triggers one eviction pass over 10 entries. -/
def c4ops : List Op :=
  [.opSet "k0" (.int 0) wT, .opSet "k1" (.int 1) wT, .opSet "k2" (.int 2) wT,
   .opSet "k3" (.int 3) wT, .opSet "k4" (.int 4) wT, .opSet "k5" (.int 5) wT,
   .opSet "k6" (.int 6) wT, .opSet "k7" (.int 7) wT, .opSet "k8" (.int 8) wT,
   .opSet "k9" (.int 9) wT]

/-- The engine state after the first nine sets of `c4ops`. -/
def c4pre : EngineState := runOps (initState 9) (c4ops.take 9)

/-- The engine state after all ten sets of `c4ops`. -/
def c4state : EngineState := runOps (initState 9) c4ops

/-- A 1-slot engine whose only entry `j` has been read four times
(`access_count = 5`), so any fresh insertion ranks below it. -/
def c6pre : EngineState :=
  runOps (initState 1)
    [.opSet "j" (.int 0) wT, .opGet "j", .opGet "j", .opGet "j", .opGet "j"]

/-- `set("k", 7)` on `c6pre` with a failing disk: the eviction pass inside
the `set` itself picks `k` (lowest `access_count`), its write fails, and
the entry is dropped anyway. -/
def c6state : EngineState := runOp c6pre (.opSet "k" (.int 7) wF)

/-- A 10-slot engine where `k ↦ 5` has been set and flushed: the cache
entry is clean and the shard file holds 5. -/
def c7pre : EngineState :=
  runOps (initState 10) [.opSet "k" (.int 5) wT, .opFlush wT]

/-- `delete("k")` on `c7pre` whose `unlink` raises: the cache entry goes,
the shard file stays. -/
def c7state : EngineState := runOp c7pre (.opDelete "k" false)

/-- Which trace operations are `set` calls (claim C5 quantifies over
sequences of `set` calls). -/
def isSetOp : Op → Prop
  | .opSet _ _ _ => True
  | _ => False

/-- The engine-state invariant maintained by sequences of `set` calls:
fixed configuration, uniquely-keyed cache index, and occupancy within
`cache_size`. -/
def cacheInv (cs : Nat) (s : EngineState) : Prop :=
  s.config.cache_size = cs ∧ keysNodup s.cache ∧ s.cache.length ≤ cs

/-- A 1-slot engine holding two dirty entries, ready for one eviction
pass. -/
def c4w : EngineState :=
  { config := ⟨1⟩,
    cache := [("a", ⟨Value.int 1, 0, true, 1⟩), ("b", ⟨Value.int 2, 1, true, 1⟩)],
    disk := [],
    clock := 2 }

/-- A 1-slot engine whose cache already holds two warmed entries (grown
by cache-miss gets) while a third key `k` sits on disk. -/
def c9full : EngineState :=
  { config := ⟨1⟩,
    cache := [("a", ⟨Value.int 1, 0, false, 1⟩), ("b", ⟨Value.int 2, 1, false, 1⟩)],
    disk := [("k", ⟨"k", Value.int 3, 0⟩)],
    clock := 2 }

/-- A 2-slot engine whose cache holds `a ↦ None` and whose disk holds a
record storing `None` for `b`. -/
def c10s : EngineState :=
  { config := ⟨2⟩,
    cache := [("a", ⟨Value.null, 0, true, 1⟩)],
    disk := [("b", ⟨"b", Value.null, 0⟩)],
    clock := 1 }

/-! ### Association-list lemmas -/

theorem ok_bind (a : α) (f : α → Except ε β) : (Except.ok a >>= f) = f a := rfl

theorem pure_ok (a : α) : (pure a : Except ε α) = Except.ok a := rfl

theorem lookupA_insertA_self (k : String) (v : α) :
    ∀ l : List (String × α), lookupA k (insertA k v l) = some v := by
  intro l
  induction l with
  | nil => simp [insertA, lookupA]
  | cons p t ih =>
      by_cases h : p.1 = k
      · simp [insertA, lookupA, h]
      · simp [insertA, lookupA, h, ih]

theorem insertA_of_lookupA_none (k : String) (v : α) :
    ∀ l : List (String × α), lookupA k l = none → insertA k v l = l ++ [(k, v)] := by
  intro l
  induction l with
  | nil => simp [insertA]
  | cons p t ih =>
      intro h
      by_cases hp : p.1 = k
      · simp [lookupA, hp] at h
      · simp [lookupA, hp] at h
        simp [insertA, hp, ih h]

theorem length_insertA_le (k : String) (v : α) :
    ∀ l : List (String × α), (insertA k v l).length ≤ l.length + 1 := by
  intro l
  induction l with
  | nil => simp [insertA]
  | cons p t ih =>
      by_cases h : p.1 = k
      · simp [insertA, h]
      · simp only [insertA, if_neg h, List.length_cons]
        omega

theorem lookupA_eraseKey_self (k : String) (l : List (String × α)) :
    lookupA k (eraseKey k l) = none := by
  induction l with
  | nil => simp [eraseKey, lookupA]
  | cons p t ih =>
      by_cases h : p.1 = k
      · simpa [eraseKey, h] using ih
      · simpa [eraseKey, lookupA, h] using ih

theorem mem_keys_insertA (k a : String) (v : α) :
    ∀ l : List (String × α),
    a ∈ (insertA k v l).map Prod.fst → a = k ∨ a ∈ l.map Prod.fst := by
  intro l
  induction l with
  | nil => simp [insertA]
  | cons p t ih =>
      by_cases h : p.1 = k
      · simp only [insertA, if_pos h, List.map_cons, List.mem_cons]
        rintro (rfl | ha)
        · exact Or.inl rfl
        · exact Or.inr (Or.inr ha)
      · simp only [insertA, if_neg h, List.map_cons, List.mem_cons]
        rintro (rfl | ha)
        · exact Or.inr (Or.inl rfl)
        · rcases ih ha with h1 | h1
          · exact Or.inl h1
          · exact Or.inr (Or.inr h1)

theorem keysNodup_insertA (k : String) (v : α) :
    ∀ l : List (String × α), keysNodup l → keysNodup (insertA k v l) := by
  intro l
  induction l with
  | nil => intro _; simp [insertA, keysNodup]
  | cons p t ih =>
      intro hnd
      simp only [keysNodup, List.map_cons, List.nodup_cons] at hnd
      by_cases h : p.1 = k
      · simp only [insertA, if_pos h, keysNodup, List.map_cons, List.nodup_cons]
        exact ⟨h ▸ hnd.1, hnd.2⟩
      · simp only [insertA, if_neg h, keysNodup, List.map_cons, List.nodup_cons]
        refine ⟨?_, ih hnd.2⟩
        intro hmem
        rcases mem_keys_insertA k p.1 v t hmem with h1 | h1
        · exact h h1
        · exact hnd.1 h1

theorem keysNodup_filter (p : String × α → Bool) (l : List (String × α))
    (hnd : keysNodup l) : keysNodup (l.filter p) :=
  ((List.filter_sublist l).map Prod.fst).nodup hnd

theorem evictStep_cache (wOk : String → Bool) (st : EngineState)
    (ke : String × CacheEntry) :
    (evictStep wOk st ke).cache = eraseKey ke.1 st.cache := by
  unfold evictStep
  by_cases h : ke.2.dirty
  · rw [if_pos h]
  · rw [if_neg h]

theorem evict_foldl_cache (wOk : String → Bool) :
    ∀ (es : List (String × CacheEntry)) (s : EngineState),
    (es.foldl (evictStep wOk) s).cache
      = es.foldl (fun c ke => eraseKey ke.1 c) s.cache := by
  intro es
  induction es with
  | nil => intro s; rfl
  | cons e t ih =>
      intro s
      simp only [List.foldl_cons]
      rw [ih, evictStep_cache]

theorem foldl_eraseKey_eq_filter :
    ∀ (es : List (String × CacheEntry)) (c : List (String × CacheEntry)),
    es.foldl (fun c ke => eraseKey ke.1 c) c
      = c.filter (fun p => decide (p.1 ∉ es.map Prod.fst)) := by
  intro es
  induction es with
  | nil => intro c; simp
  | cons e t ih =>
      intro c
      simp only [List.foldl_cons]
      rw [ih, eraseKey, List.filter_filter]
      apply List.filter_congr
      intro a _
      by_cases h1 : a.1 = e.1 <;> by_cases h2 : a.1 ∈ t.map Prod.fst <;>
        simp [h1, h2]

theorem filter_not_mem_take (l : List (String × CacheEntry)) (r : Nat)
    (hnd : (l.map Prod.fst).Nodup) :
    l.filter (fun p => decide (p.1 ∉ (l.take r).map Prod.fst)) = l.drop r := by
  have hsplit : (l.take r).filter (fun p => decide (p.1 ∉ (l.take r).map Prod.fst))
      ++ (l.drop r).filter (fun p => decide (p.1 ∉ (l.take r).map Prod.fst))
      = l.filter (fun p => decide (p.1 ∉ (l.take r).map Prod.fst)) := by
    rw [← List.filter_append, List.take_append_drop]
  rw [← hsplit]
  have hd : l.map Prod.fst = (l.take r).map Prod.fst ++ (l.drop r).map Prod.fst := by
    rw [← List.map_append, List.take_append_drop]
  rw [hd] at hnd
  rcases List.nodup_append.mp hnd with ⟨-, -, hdisj⟩
  have h1 : (l.take r).filter (fun p => decide (p.1 ∉ (l.take r).map Prod.fst)) = [] := by
    apply List.filter_eq_nil_iff.mpr
    intro p hp
    simp only [decide_eq_true_eq, Decidable.not_not]
    exact List.mem_map_of_mem Prod.fst hp
  have h2 : (l.drop r).filter (fun p => decide (p.1 ∉ (l.take r).map Prod.fst)) = l.drop r := by
    apply List.filter_eq_self.mpr
    intro p hp
    simp only [decide_eq_true_eq]
    intro hmem
    exact hdisj hmem (List.mem_map_of_mem Prod.fst hp)
  rw [h1, h2, List.nil_append]

theorem evict_cache_eq (wOk : String → Bool) (s : EngineState)
    (h : ¬ s.cache.length ≤ s.config.cache_size) :
    (_evict_lru wOk s).cache
      = s.cache.filter (fun p =>
          decide (p.1 ∉ ((List.insertionSort rankLe s.cache).take
            ((List.insertionSort rankLe s.cache).length / 10 + 1)).map Prod.fst)) := by
  unfold _evict_lru
  rw [if_neg h, evict_foldl_cache, foldl_eraseKey_eq_filter]

theorem evict_lru_keysNodup (wOk : String → Bool) (s : EngineState)
    (hnd : keysNodup s.cache) : keysNodup (_evict_lru wOk s).cache := by
  by_cases h : s.cache.length ≤ s.config.cache_size
  · unfold _evict_lru
    rw [if_pos h]
    exact hnd
  · rw [evict_cache_eq wOk s h]
    exact keysNodup_filter _ _ hnd

theorem evict_lru_spec (wOk : String → Bool) (s : EngineState)
    (hnd : keysNodup s.cache)
    (hover : s.config.cache_size < s.cache.length) :
    (_evict_lru wOk s).cache.Perm
        ((List.insertionSort rankLe s.cache).drop (s.cache.length / 10 + 1)) ∧
    (_evict_lru wOk s).cache.length
        = s.cache.length - (s.cache.length / 10 + 1) := by
  have hperm : (List.insertionSort rankLe s.cache).Perm s.cache :=
    List.perm_insertionSort rankLe s.cache
  have hlen : (List.insertionSort rankLe s.cache).length = s.cache.length :=
    List.length_insertionSort rankLe s.cache
  have hndL : ((List.insertionSort rankLe s.cache).map Prod.fst).Nodup :=
    (hperm.map Prod.fst).nodup_iff.mpr hnd
  have hcache := evict_cache_eq wOk s (by omega)
  have hp : (_evict_lru wOk s).cache.Perm
      ((List.insertionSort rankLe s.cache).filter (fun p =>
        decide (p.1 ∉ ((List.insertionSort rankLe s.cache).take
          ((List.insertionSort rankLe s.cache).length / 10 + 1)).map Prod.fst))) := by
    rw [hcache]
    exact (hperm.filter _).symm
  rw [filter_not_mem_take _ _ hndL, hlen] at hp
  refine ⟨hp, ?_⟩
  rw [hp.length_eq, List.length_drop, hlen]

theorem error_bind (e : ε) (f : α → Except ε β) :
    (Except.error e >>= f : Except ε β) = Except.error e := rfl

theorem evictStep_config (w : String → Bool) (st : EngineState)
    (ke : String × CacheEntry) : (evictStep w st ke).config = st.config := by
  unfold evictStep
  by_cases h : ke.2.dirty
  · rw [if_pos h]
  · rw [if_neg h]

theorem evict_foldl_config (w : String → Bool) :
    ∀ (es : List (String × CacheEntry)) (s : EngineState),
    (es.foldl (evictStep w) s).config = s.config := by
  intro es
  induction es with
  | nil => intro s; rfl
  | cons e t ih =>
      intro s
      simp only [List.foldl_cons]
      rw [ih, evictStep_config]

theorem evict_lru_config (w : String → Bool) (s : EngineState) :
    (_evict_lru w s).config = s.config := by
  unfold _evict_lru
  by_cases h : s.cache.length ≤ s.config.cache_size
  · rw [if_pos h]
  · rw [if_neg h]
    exact evict_foldl_config w _ s

theorem setOp_preserves_inv (cs : Nat) (k : String) (v : Value)
    (w : String → Bool) (s : EngineState) (h : cacheInv cs s) :
    cacheInv cs (runOp s (.opSet k v w)) := by
  rcases h with ⟨hcfg, hnd, hlen⟩
  by_cases hk : k.length = 0 ∨ k.length > 256
  · have hv : _validate_key k = .error .invalidKey := by simp [_validate_key, hk]
    simp only [runOp, set, hv, error_bind]
    exact ⟨hcfg, hnd, hlen⟩
  · have hkv : _validate_key k = .ok k := by simp [_validate_key, hk]
    simp only [runOp, set, hkv, ok_bind, pure_ok]
    have hnd1 : keysNodup (setInsertPhase k v s).cache :=
      keysNodup_insertA k _ s.cache hnd
    have hlen1 : (setInsertPhase k v s).cache.length ≤ s.cache.length + 1 :=
      length_insertA_le k _ s.cache
    have hcfg1 : (setInsertPhase k v s).config.cache_size = cs := hcfg
    by_cases hov : (setInsertPhase k v s).cache.length >
        (setInsertPhase k v s).config.cache_size
    · rw [if_pos hov]
      refine ⟨?_, evict_lru_keysNodup w _ hnd1, ?_⟩
      · rw [evict_lru_config]
        exact hcfg1
      · have hspec := (evict_lru_spec w (setInsertPhase k v s) hnd1 hov).2
        rw [hspec]
        have hq : (setInsertPhase k v s).cache.length = cs + 1 := by
          have := hcfg1
          omega
        rw [hq]
        omega
    · rw [if_neg hov]
      exact ⟨hcfg1, hnd1, by omega⟩

theorem runOps_preserves_inv (cs : Nat) :
    ∀ (ops : List Op) (s : EngineState), (∀ op ∈ ops, isSetOp op) →
    cacheInv cs s → cacheInv cs (runOps s ops) := by
  intro ops
  induction ops with
  | nil => intro s _ h; exact h
  | cons op t ih =>
      intro s hops h
      have hop := hops op (List.mem_cons_self op t)
      have hrest : ∀ o ∈ t, isSetOp o := fun o ho => hops o (List.mem_cons_of_mem _ ho)
      cases op with
      | opSet k v w =>
          exact ih (runOp s (.opSet k v w)) hrest (setOp_preserves_inv cs k v w s h)
      | opGet k => exact hop.elim
      | opDelete k r => exact hop.elim
      | opFlush w => exact hop.elim

theorem initState_inv (cs : Nat) : cacheInv cs (initState cs) := by
  refine ⟨rfl, ?_, ?_⟩
  · simp [keysNodup, initState]
  · simp [initState]

/-! ### Claim theorems -/

/-- C8: an empty key or a key longer than 256 characters makes `set`,
`get`, `delete` and `exists` raise `InvalidKey` synchronously, with no
change to the cache index and no disk file touched (the erroring call
leaves the engine state exactly as it was). -/
theorem c8_invalid_key_rejected (k : String) (h : k.length = 0 ∨ k.length > 256)
    (s : EngineState) (v : Value) (w : String → Bool) (r : Bool) :
    FDB.set k v w s = .error .invalidKey ∧
    FDB.get k s = .error .invalidKey ∧
    FDB.delete k r s = .error .invalidKey ∧
    FDB.existsKey k s = .error .invalidKey ∧
    runOp s (.opSet k v w) = s ∧
    runOp s (.opGet k) = s ∧
    runOp s (.opDelete k r) = s := by
  have hv : _validate_key k = .error .invalidKey := by
    simp [_validate_key, h]
  refine ⟨?_, ?_, ?_, ?_, ?_, ?_, ?_⟩ <;>
    simp only [set, get, delete, existsKey, runOp, hv] <;> rfl

/-- C8 witness: the empty key is rejected everywhere with the state
untouched. -/
theorem c8_invalid_key_rejected_w :
    (("" : String).length = 0 ∨ ("" : String).length > 256) ∧
    (FDB.set "" Value.null wT (initState 1) = .error .invalidKey ∧
     FDB.get "" (initState 1) = .error .invalidKey ∧
     FDB.delete "" true (initState 1) = .error .invalidKey ∧
     FDB.existsKey "" (initState 1) = .error .invalidKey ∧
     runOp (initState 1) (.opSet "" Value.null wT) = initState 1 ∧
     runOp (initState 1) (.opGet "") = initState 1 ∧
     runOp (initState 1) (.opDelete "" true) = initState 1) :=
  ⟨Or.inl rfl, c8_invalid_key_rejected "" (Or.inl rfl) (initState 1) Value.null wT true⟩

/-- C1 (code bug): `flush` clears a snapshotted entry's dirty flag
whenever the key is still present, checking neither write success nor
entry identity.  Left half: a `set("k", 2)` that lands during the write
window is marked clean (`dirty = false`), so the newer value 2 is never
flushed — the disk keeps the stale 1.  Right half: a flush whose only
disk write fails still clears the flag and reports 1 entry flushed,
though nothing reached the disk. -/
theorem c1_flush_dirty_clear_bug :
    (lookupA "k" c1out.2.cache).map (fun e => (e.value, e.dirty))
        = some (Value.int 2, false) ∧
    (lookupA "k" c1out.2.disk).map DiskRecord.value = some (Value.int 1) ∧
    c1out2.1 = 1 ∧
    (lookupA "k" c1out2.2.cache).map (fun e => (e.value, e.dirty))
        = some (Value.int 1, false) ∧
    lookupA "k" c1out2.2.disk = none := by
  decide

/-- C2 (code bug): the eviction pass in `c2state` picks the dirty,
never-persisted entry `a ↦ 1`, its disk write fails, and `_evict_lru`
deletes it from the index anyway: afterwards `a` is in neither the cache
nor the disk, so the accepted write is silently lost. -/
theorem c2_evict_drops_unpersisted_entry :
    (lookupA "a" c2pre.cache).map (fun e => (e.value, e.dirty))
        = some (Value.int 1, true) ∧
    lookupA "a" c2state.cache = none ∧
    lookupA "a" c2state.disk = none := by
  decide

/-- C3 (code bug): `stop()` on an engine holding the dirty entry
`k ↦ "v"` while the disk write fails ends with no dirty entries (the
final flush clears the flag regardless of the failure) yet no shard file
for `k`, so a fresh engine on the same `data_dir` answers not-found
instead of `"v"`. -/
theorem c3_stop_loses_unwritten_value :
    c3stop.cache.filter (fun p => p.2.dirty) = [] ∧
    lookupA "k" c3stop.disk = none ∧
    getValue "k" (recover c3stop.config c3stop.disk) = Value.null ∧
    Value.null ≠ Value.str "v" := by
  decide

/-- C6 (code bug): on the 1-slot engine `c6pre`, `set("k", 7)` itself
evicts `k` (it ranks below the hot entry `j`), the eviction write fails,
and the entry is dropped; the immediately following `get("k")` — with no
intervening delete, flushdb or overwrite — returns the not-found sentinel
instead of 7. -/
theorem c6_set_get_roundtrip_bug :
    FDB.set "k" (Value.int 7) wF c6pre = .ok (true, c6state) ∧
    getValue "k" c6state = Value.null ∧
    Value.null ≠ Value.int 7 := by
  decide

/-- C7 counterexample: on `c7pre` (where `k ↦ 5` sits in cache and on
disk), `delete("k")` whose `unlink` fails returns `False` and leaves the
shard file; the subsequent `get("k")`, with no intervening `set`, returns
5, not the not-found sentinel the claim promises. -/
theorem c7_delete_then_get_cex :
    FDB.delete "k" false c7pre = .ok (false, c7state) ∧
    lookupA "k" c7state.cache = none ∧
    (lookupA "k" c7state.disk).map DiskRecord.value = some (Value.int 5) ∧
    getValue "k" c7state = Value.int 5 ∧
    Value.int 5 ≠ Value.null := by
  decide

/-- C7 (amended): `delete(k)` removes the cache entry unconditionally and
attempts to remove the disk record; the boolean result reflects disk
removal success, with a missing shard file counted as success; and when
the result is `True`, a subsequent `get(k)` with no intervening `set`
yields not-found. -/
theorem c7_delete_contract (s : EngineState) (k : String) (r : Bool)
    (hk : _validate_key k = .ok k) :
    (∀ b s1, FDB.delete k r s = .ok (b, s1) → lookupA k s1.cache = none) ∧
    (lookupA k s.disk = none →
       FDB.delete k r s = .ok (true, { s with cache := eraseKey k s.cache })) ∧
    (∀ rec1, lookupA k s.disk = some rec1 →
       FDB.delete k r s = .ok (r,
         { s with cache := eraseKey k s.cache,
                  disk := if r then eraseKey k s.disk else s.disk })) ∧
    (∀ b s1, FDB.delete k r s = .ok (b, s1) → b = true →
       FDB.get k s1 = .ok (Value.null, s1)) := by
  have hdel : FDB.delete k r s =
      match lookupA k s.disk with
      | some _ =>
          if r then
            .ok (true, { s with cache := eraseKey k s.cache, disk := eraseKey k s.disk })
          else
            .ok (false, { s with cache := eraseKey k s.cache })
      | none => .ok (true, { s with cache := eraseKey k s.cache }) := by
    cases hld : lookupA k s.disk with
    | none => simp only [delete, hk, ok_bind, _remove_from_disk, hld]; rfl
    | some rec1 =>
        cases r with
        | true => simp only [delete, hk, ok_bind, _remove_from_disk, hld]; rfl
        | false => simp only [delete, hk, ok_bind, _remove_from_disk, hld]; rfl
  have hget : ∀ s1 : EngineState, lookupA k s1.cache = none →
      lookupA k s1.disk = none → FDB.get k s1 = .ok (Value.null, s1) := by
    intro s1 h1 h2
    simp only [get, hk, ok_bind, h1, _load_from_disk, h2]
    rfl
  refine ⟨?_, ?_, ?_, ?_⟩
  · intro b s1 hb
    rw [hdel] at hb
    cases hld : lookupA k s.disk with
    | none =>
        rw [hld] at hb
        cases hb
        exact lookupA_eraseKey_self k s.cache
    | some rec1 =>
        rw [hld] at hb
        cases r with
        | true => simp only [if_pos] at hb; cases hb; exact lookupA_eraseKey_self k s.cache
        | false => simp only [Bool.false_eq_true, if_false] at hb; cases hb; exact lookupA_eraseKey_self k s.cache
  · intro hld
    rw [hdel, hld]
  · intro rec1 hld
    rw [hdel, hld]
    cases r with
    | true => simp
    | false => simp
  · intro b s1 hb hbt
    subst hbt
    rw [hdel] at hb
    cases hld : lookupA k s.disk with
    | none =>
        rw [hld] at hb
        cases hb
        exact hget _ (lookupA_eraseKey_self k s.cache) hld
    | some rec1 =>
        rw [hld] at hb
        cases r with
        | true =>
            simp only [if_pos] at hb
            cases hb
            exact hget _ (lookupA_eraseKey_self k s.cache) (lookupA_eraseKey_self k s.disk)
        | false =>
            simp only [Bool.false_eq_true, if_false, Except.ok.injEq, Prod.mk.injEq] at hb
            exact hb.1.elim

/-- C7 witness: the amended delete contract evaluated on a concrete
engine holding `k ↦ 5` in cache and on disk, with a succeeding unlink. -/
theorem c7_delete_contract_w :
    _validate_key "k" = .ok "k" ∧
    ((∀ b s1, FDB.delete "k" true c7pre = .ok (b, s1) → lookupA "k" s1.cache = none) ∧
     (lookupA "k" c7pre.disk = none →
        FDB.delete "k" true c7pre = .ok (true, { c7pre with cache := eraseKey "k" c7pre.cache })) ∧
     (∀ rec1, lookupA "k" c7pre.disk = some rec1 →
        FDB.delete "k" true c7pre = .ok (true,
          { c7pre with cache := eraseKey "k" c7pre.cache,
                       disk := if true then eraseKey "k" c7pre.disk else c7pre.disk })) ∧
     (∀ b s1, FDB.delete "k" true c7pre = .ok (b, s1) → b = true →
        FDB.get "k" s1 = .ok (Value.null, s1))) :=
  ⟨by decide, c7_delete_contract c7pre "k" true (by decide)⟩

/-- C9: a cache-miss `get` whose key is on disk (with a non-`None` value)
installs a warmed entry with `dirty = false` and does not consult
`cache_size` or run `_evict_lru`: the index grows by exactly one entry,
and if it was already at or above `cache_size` it now exceeds it. -/
theorem c9_miss_get_warms_unbounded (s : EngineState) (k : String) (rec1 : DiskRecord)
    (hk : _validate_key k = .ok k)
    (hmiss : lookupA k s.cache = none)
    (hdisk : lookupA k s.disk = some rec1)
    (hval : rec1.value ≠ Value.null) :
    FDB.get k s = .ok (rec1.value,
      { s with cache := insertA k ⟨rec1.value, s.clock, false, 1⟩ s.cache,
               clock := s.clock + 1 }) ∧
    (insertA k ⟨rec1.value, s.clock, false, 1⟩ s.cache).length = s.cache.length + 1 ∧
    (s.config.cache_size ≤ s.cache.length →
      s.config.cache_size < (insertA k ⟨rec1.value, s.clock, false, 1⟩ s.cache).length) := by
  have hlen : (insertA k (⟨rec1.value, s.clock, false, 1⟩ : CacheEntry) s.cache).length
      = s.cache.length + 1 := by
    rw [insertA_of_lookupA_none k _ s.cache hmiss]
    simp
  refine ⟨?_, hlen, ?_⟩
  · simp only [get, hk, ok_bind, hmiss, _load_from_disk, hdisk]
    rw [if_pos hval]
    rfl
  · intro hge
    omega

/-- C9 witness: a 1-slot engine already holding two warmed entries takes
a third from disk, ending three-over-one with no eviction. -/
theorem c9_miss_get_warms_unbounded_w :
    _validate_key "k" = .ok "k" ∧
    lookupA "k" c9full.cache = none ∧
    lookupA "k" c9full.disk = some ⟨"k", Value.int 3, 0⟩ ∧
    (⟨"k", Value.int 3, 0⟩ : DiskRecord).value ≠ Value.null ∧
    (FDB.get "k" c9full = .ok ((⟨"k", Value.int 3, 0⟩ : DiskRecord).value,
      { c9full with
          cache := insertA "k" ⟨(⟨"k", Value.int 3, 0⟩ : DiskRecord).value, c9full.clock, false, 1⟩ c9full.cache,
          clock := c9full.clock + 1 }) ∧
     (insertA "k" ⟨(⟨"k", Value.int 3, 0⟩ : DiskRecord).value, c9full.clock, false, 1⟩ c9full.cache).length
        = c9full.cache.length + 1 ∧
     (c9full.config.cache_size ≤ c9full.cache.length →
       c9full.config.cache_size <
         (insertA "k" ⟨(⟨"k", Value.int 3, 0⟩ : DiskRecord).value, c9full.clock, false, 1⟩ c9full.cache).length)) :=
  ⟨by decide, by decide, by decide, by decide,
   c9_miss_get_warms_unbounded c9full "k" ⟨"k", Value.int 3, 0⟩
     (by decide) (by decide) (by decide) (by decide)⟩

/-- C10: storing `None` is indistinguishable from absence at the public
interface.  Cache-hit path: a cached entry holding `None` makes `get`
return the not-found sentinel.  Disk path: when `_load_from_disk` yields
`None` (either no shard file, or a record storing `None`), `get` returns
the same sentinel without warming the cache.  And `set(k, None)` followed
by `get(k)` (no eviction intervening) hits the cached `None` entry and
returns that same sentinel. -/
theorem c10_null_equals_absent (s : EngineState) (k : String) (w : String → Bool)
    (hk : _validate_key k = .ok k) :
    (∀ e, lookupA k s.cache = some e → e.value = Value.null →
        FDB.get k s = .ok (Value.null, { s with cache := bumpAccess k s.cache })) ∧
    (lookupA k s.cache = none → _load_from_disk k s.disk = Value.null →
        FDB.get k s = .ok (Value.null, s)) ∧
    (s.cache.length < s.config.cache_size →
        FDB.set k Value.null w s = .ok (true, setInsertPhase k Value.null s) ∧
        FDB.get k (setInsertPhase k Value.null s)
          = .ok (Value.null, { setInsertPhase k Value.null s with
              cache := bumpAccess k (setInsertPhase k Value.null s).cache })) := by
  refine ⟨?_, ?_, ?_⟩
  · intro e he hnull
    simp only [get, hk, ok_bind, he]
    rw [← hnull]
    rfl
  · intro hmiss hload
    simp only [get, hk, ok_bind, hmiss, hload]
    rfl
  · intro hroom
    have hsmall : ¬ (setInsertPhase k Value.null s).cache.length > s.config.cache_size := by
      have := length_insertA_le k (⟨Value.null, s.clock, true, 1⟩ : CacheEntry) s.cache
      simp only [setInsertPhase]
      omega
    constructor
    · simp only [set, hk, ok_bind]
      rw [if_neg (by simpa [setInsertPhase] using hsmall)]
      rfl
    · have hhit : lookupA k (setInsertPhase k Value.null s).cache
          = some ⟨Value.null, s.clock, true, 1⟩ := by
        simp only [setInsertPhase]
        exact lookupA_insertA_self k _ s.cache
      simp only [get, hk, ok_bind, hhit]
      rfl

/-- C4 counterexample: on a 9-slot engine, the tenth `set` triggers an
eviction pass over an index of 10 entries.  The claim demands exactly
`ceil(10 / 10) = 1` removal (leaving 9); the code removes
`10 // 10 + 1 = 2`, leaving 8. -/
theorem c4_evict_count_cex :
    c4pre.cache.length = 9 ∧
    (setInsertPhase "k9" (Value.int 9) c4pre).cache.length = 10 ∧
    c4state.cache.length = 8 ∧
    ¬ c4state.cache.length = 10 - 1 := by
  decide

/-- C4 (amended): an eviction pass over an index of `n` uniquely-keyed
entries with `n > cache_size` ranks the entries ascending by
`(access_count, timestamp)` (stable sort) and removes exactly the
lowest-ranked `n / 10 + 1` of them: the surviving index is a permutation
of the sorted list minus its first `n / 10 + 1` entries. -/
theorem c4_evict_lowest_ranked (wOk : String → Bool) (s : EngineState)
    (hnd : keysNodup s.cache)
    (hover : s.config.cache_size < s.cache.length) :
    List.Sorted rankLe (List.insertionSort rankLe s.cache) ∧
    (_evict_lru wOk s).cache.Perm
        ((List.insertionSort rankLe s.cache).drop (s.cache.length / 10 + 1)) ∧
    (_evict_lru wOk s).cache.length = s.cache.length - (s.cache.length / 10 + 1) := by
  exact ⟨List.sorted_insertionSort rankLe s.cache,
    (evict_lru_spec wOk s hnd hover).1, (evict_lru_spec wOk s hnd hover).2⟩

/-- C4 witness: the eviction contract evaluated on a 1-slot engine
holding two dirty entries. -/
theorem c4_evict_lowest_ranked_w :
    keysNodup c4w.cache ∧
    c4w.config.cache_size < c4w.cache.length ∧
    (List.Sorted rankLe (List.insertionSort rankLe c4w.cache) ∧
     (_evict_lru wT c4w).cache.Perm
        ((List.insertionSort rankLe c4w.cache).drop (c4w.cache.length / 10 + 1)) ∧
     (_evict_lru wT c4w).cache.length
        = c4w.cache.length - (c4w.cache.length / 10 + 1)) :=
  ⟨by decide, by decide, c4_evict_lowest_ranked wT c4w (by decide) (by decide)⟩

/-- C5: starting from a fresh engine, a sequence of `set` calls keeps the
index at or below `cache_size` after every call (first conjunct); during
a `set` the index transiently holds at most `cache_size + 1` entries
(second conjunct); any `set` whose insertion leaves the index above
`cache_size` runs `_evict_lru` before returning (third conjunct); and a
single `set` from any conforming state lands back at or below
`cache_size` (fourth conjunct). -/
theorem c5_set_cache_bound (cs : Nat) (ops : List Op)
    (hops : ∀ op ∈ ops, isSetOp op) :
    (runOps (initState cs) ops).cache.length ≤ cs ∧
    (∀ (s : EngineState) (k : String) (v : Value), s.cache.length ≤ cs →
        (setInsertPhase k v s).cache.length ≤ cs + 1) ∧
    (∀ (s : EngineState) (k : String) (v : Value) (w : String → Bool),
        s.config.cache_size = cs → _validate_key k = .ok k →
        cs < (setInsertPhase k v s).cache.length →
        FDB.set k v w s = .ok (true, _evict_lru w (setInsertPhase k v s))) ∧
    (∀ (s : EngineState) (k : String) (v : Value) (w : String → Bool),
        s.config.cache_size = cs → keysNodup s.cache → s.cache.length ≤ cs →
        (runOp s (.opSet k v w)).cache.length ≤ cs) := by
  refine ⟨?_, ?_, ?_, ?_⟩
  · exact (runOps_preserves_inv cs ops (initState cs) hops (initState_inv cs)).2.2
  · intro s k v hlen
    have := length_insertA_le k (⟨v, s.clock, true, 1⟩ : CacheEntry) s.cache
    simp only [setInsertPhase]
    omega
  · intro s k v w hcfg hk hover
    have hcond : (setInsertPhase k v s).cache.length >
        (setInsertPhase k v s).config.cache_size := by
      have : (setInsertPhase k v s).config.cache_size = cs := hcfg
      omega
    simp only [set, hk, ok_bind]
    rw [if_pos hcond]
    rfl
  · intro s k v w hcfg hnd hlen
    exact (setOp_preserves_inv cs k v w s ⟨hcfg, hnd, hlen⟩).2.2

/-- C5 witness: three sets on a 1-slot engine, with the concrete bounds.
-/
theorem c5_set_cache_bound_w :
    (∀ op ∈ ([.opSet "a" (Value.int 1) wT, .opSet "b" (Value.int 2) wT,
              .opSet "c" (Value.int 3) wT] : List Op), isSetOp op) ∧
    ((runOps (initState 1) [.opSet "a" (Value.int 1) wT, .opSet "b" (Value.int 2) wT,
              .opSet "c" (Value.int 3) wT]).cache.length ≤ 1 ∧
     (∀ (s : EngineState) (k : String) (v : Value), s.cache.length ≤ 1 →
        (setInsertPhase k v s).cache.length ≤ 1 + 1) ∧
     (∀ (s : EngineState) (k : String) (v : Value) (w : String → Bool),
        s.config.cache_size = 1 → _validate_key k = .ok k →
        1 < (setInsertPhase k v s).cache.length →
        FDB.set k v w s = .ok (true, _evict_lru w (setInsertPhase k v s))) ∧
     (∀ (s : EngineState) (k : String) (v : Value) (w : String → Bool),
        s.config.cache_size = 1 → keysNodup s.cache → s.cache.length ≤ 1 →
        (runOp s (.opSet k v w)).cache.length ≤ 1)) :=
  ⟨by intro op hop
      simp only [List.mem_cons, List.not_mem_nil, or_false] at hop
      rcases hop with rfl | rfl | rfl <;> trivial,
   c5_set_cache_bound 1 _
     (by intro op hop
         simp only [List.mem_cons, List.not_mem_nil, or_false] at hop
         rcases hop with rfl | rfl | rfl <;> trivial)⟩

/-- C10 witness: the three paths evaluated on a concrete 2-slot engine
whose cache holds `a ↦ None` and whose disk holds a `None` record for
`b`. -/
theorem c10_null_equals_absent_w :
    _validate_key "a" = .ok "a" ∧
    ((∀ e, lookupA "a" c10s.cache = some e → e.value = Value.null →
        FDB.get "a" c10s = .ok (Value.null, { c10s with cache := bumpAccess "a" c10s.cache })) ∧
     (lookupA "a" c10s.cache = none → _load_from_disk "a" c10s.disk = Value.null →
        FDB.get "a" c10s = .ok (Value.null, c10s)) ∧
     (c10s.cache.length < c10s.config.cache_size →
        FDB.set "a" Value.null wT c10s = .ok (true, setInsertPhase "a" Value.null c10s) ∧
        FDB.get "a" (setInsertPhase "a" Value.null c10s)
          = .ok (Value.null, { setInsertPhase "a" Value.null c10s with
              cache := bumpAccess "a" (setInsertPhase "a" Value.null c10s).cache }))) :=
  ⟨by decide, c10_null_equals_absent c10s "a" wT (by decide)⟩

end FDB
